import Mathlib

set_option autoImplicit false

namespace ExpenseApp

/-- Member identifiers are character sequences, as in the JavaScript source where
user ids are strings read from the request and from the database. -/
abbrev MemberId := List Char

/-- Accumulator keys of the group balance map: strings of the form ower-payer
built by template literals in the source. -/
abbrev BKey := List Char

/-- Rounding a rational to two decimal places: the model of toFixed(2) followed by
Number conversion. Ties round toward positive infinity, matching the pick-the-larger
rule of the toFixed specification. -/
def roundTo2 (q : ℚ) : ℚ := ((⌊q * 100 + 1 / 2⌋ : ℤ) : ℚ) / 100

/-- One row of the expense_splits table as read by the balance engine: the ower and
the owed amount, a numeric column. -/
structure SplitRec where
  user_id : MemberId
  amount : ℚ
  deriving DecidableEq

/-- One row of the expenses table joined with its splits, as read by the balance
engine: only paid_by and the split rows are consumed by the balance computation. -/
structure Expense where
  paid_by : MemberId
  expense_splits : List SplitRec
  deriving DecidableEq

/-- One row of the settlements table: a directed payment paid_by to paid_to of a
numeric amount. -/
structure Settlement where
  paid_by : MemberId
  paid_to : MemberId
  amount : ℚ
  deriving DecidableEq

/-- JavaScript object update preserving insertion order: the model of the statement
balances[key] = (balances[key] || 0) + d. An absent key is appended with value d,
a present key keeps its position and accumulates d. -/
def updA : List (BKey × ℚ) → BKey → ℚ → List (BKey × ℚ)
  | [], k, d => [(k, d)]
  | (k0, v) :: m, k, d => if k0 = k then (k0, v + d) :: m else (k0, v) :: updA m k d

/-- Reading balances[key] || 0 from the accumulator object. -/
def lookup0 : List (BKey × ℚ) → BKey → ℚ
  | [], _ => 0
  | (k0, v) :: m, k => if k0 = k then v else lookup0 m k

/-- The key list of the accumulator object, in insertion order. -/
def keysOf (m : List (BKey × ℚ)) : List BKey := m.map Prod.fst

/-- The template literal joining two ids with a dash character, used by the source
for every accumulator key. -/
def mkKey (a b : MemberId) : BKey := a ++ '-' :: b

/-- JavaScript String.prototype.split with separator dash: cuts the string at every
dash character; a string with no dash yields one fragment. -/
def splitDash : List Char → List (List Char)
  | [] => [[]]
  | c :: rest =>
    if c = '-' then [] :: splitDash rest
    else
      match splitDash rest with
      | [] => [[c]]
      | p :: ps => (c :: p) :: ps

/-- One expense split folded into the group accumulator: a split whose ower equals
the payer is skipped, any other split adds its amount under the key ower-payer. -/
def applySplitG (payer : MemberId) (m : List (BKey × ℚ)) (s : SplitRec) :
    List (BKey × ℚ) :=
  if s.user_id ≠ payer then updA m (mkKey s.user_id payer) s.amount else m

/-- An expense folded into the group accumulator, split row by split row. -/
def applyExpenseG (m : List (BKey × ℚ)) (e : Expense) : List (BKey × ℚ) :=
  e.expense_splits.foldl (applySplitG e.paid_by) m

/-- One settlement folded into the group accumulator: the source subtracts the
settlement amount under the key paid_to-paid_by. -/
def applySettlementG (m : List (BKey × ℚ)) (st : Settlement) : List (BKey × ℚ) :=
  updA m (mkKey st.paid_to st.paid_by) (-st.amount)

/-- The balances object of getGroupBalances after both forEach loops: all expenses
first, then all settlements, in list order. -/
def groupBalanceMap (exps : List Expense) (stls : List Settlement) :
    List (BKey × ℚ) :=
  stls.foldl applySettlementG (exps.foldl applyExpenseG [])

/-- One simplified balance of the group query: from_user owes to_user the amount,
already formatted to two decimals. -/
structure Edge where
  from_user : MemberId
  to_user : MemberId
  amount : ℚ
  deriving DecidableEq

/-- The simplification loop of getGroupBalances: iterate the accumulator keys in
insertion order, recover the two endpoints as the first two fragments of the key
split at dashes, skip pairs already processed, net the key against its reverse key
and emit one directed edge when the net magnitude exceeds 0.01, then mark both
orderings as processed. -/
def simplifyLoop (bal : List (BKey × ℚ)) : List BKey → List BKey → List Edge
  | [], _ => []
  | k :: ks, proc =>
    let parts := splitDash k
    let f := parts.getD 0 []
    let t := parts.getD 1 []
    let rk := mkKey t f
    if k ∈ proc ∨ rk ∈ proc then simplifyLoop bal ks proc
    else
      let net := lookup0 bal k - lookup0 bal rk
      if 1 / 100 < |net| then
        (if 0 < net then Edge.mk f t (roundTo2 |net|) else Edge.mk t f (roundTo2 |net|)) ::
          simplifyLoop bal ks (rk :: k :: proc)
      else simplifyLoop bal ks (rk :: k :: proc)

/-- The group balance query restricted to its computational core: from the expense
and settlement rows of the group to the list of simplified balances. The display
record lookup that decorates ids with names afterwards is outside the model. -/
def getGroupBalances (exps : List Expense) (stls : List Settlement) : List Edge :=
  let bal := groupBalanceMap exps stls
  simplifyLoop bal (keysOf bal) []

/-- One expense split folded into the per-counterparty accumulator of the user
query: a split owed by the user on an expense someone else paid adds the amount
under the payer, a split owed by someone else on an expense the user paid
subtracts the amount under the ower. -/
def applyUserSplit (u payer : MemberId) (m : List (MemberId × ℚ)) (s : SplitRec) :
    List (MemberId × ℚ) :=
  if s.user_id = u ∧ payer ≠ u then updA m payer s.amount
  else if payer = u ∧ s.user_id ≠ u then updA m s.user_id (-s.amount)
  else m

/-- An expense folded into the per-counterparty accumulator of the user query. -/
def applyUserExpense (u : MemberId) (m : List (MemberId × ℚ)) (e : Expense) :
    List (MemberId × ℚ) :=
  e.expense_splits.foldl (applyUserSplit u e.paid_by) m

/-- One settlement folded into the per-counterparty accumulator of the user query:
whichever side the user is on, the amount is subtracted from the counterparty
balance; a settlement not touching the user is ignored. -/
def applyUserSettlement (u : MemberId) (m : List (MemberId × ℚ)) (st : Settlement) :
    List (MemberId × ℚ) :=
  if st.paid_by = u then updA m st.paid_to (-st.amount)
  else if st.paid_to = u then updA m st.paid_by (-st.amount)
  else m

/-- The balances object of getUserBalances after both forEach loops, for the rows
of the groups the user belongs to. -/
def userBalanceMap (u : MemberId) (exps : List Expense) (stls : List Settlement) :
    List (MemberId × ℚ) :=
  stls.foldl (applyUserSettlement u) (exps.foldl (applyUserExpense u) [])

/-- The user balance query restricted to its computational core: the owes list and
the owed list, in accumulator insertion order. An entry with magnitude above 0.01
goes to owes when positive and, by absolute value, to owed when negative; smaller
magnitudes are omitted. Amounts are formatted to two decimals. -/
def getUserBalances (u : MemberId) (exps : List Expense) (stls : List Settlement) :
    List (MemberId × ℚ) × List (MemberId × ℚ) :=
  (userBalanceMap u exps stls).foldl
    (fun acc p =>
      if 1 / 100 < |p.2| then
        if 0 < p.2 then (acc.1 ++ [(p.1, roundTo2 p.2)], acc.2)
        else (acc.1, acc.2 ++ [(p.1, roundTo2 (-p.2))])
      else acc)
    ([], [])

/-- A well-formed accumulator key: the dash-joined image of two dash-free ids. -/
def WFKey (k : BKey) : Prop :=
  ∃ a b : MemberId, '-' ∉ a ∧ '-' ∉ b ∧ k = mkKey a b

/-- All member identifiers occurring in the ledger are free of the dash character
that the source uses as its key separator. -/
def LedgerDashFree (exps : List Expense) (stls : List Settlement) : Prop :=
  (∀ e ∈ exps, '-' ∉ e.paid_by ∧ ∀ s ∈ e.expense_splits, '-' ∉ s.user_id) ∧
  ∀ st ∈ stls, '-' ∉ st.paid_by ∧ '-' ∉ st.paid_to

instance (exps : List Expense) (stls : List Settlement) :
    Decidable (LedgerDashFree exps stls) := by
  unfold LedgerDashFree
  infer_instance

/-- Two simplified balances touch different unordered pairs of endpoints. -/
def EdgeDistinct (e1 e2 : Edge) : Prop :=
  ¬ ((e1.from_user = e2.from_user ∧ e1.to_user = e2.to_user) ∨
     (e1.from_user = e2.to_user ∧ e1.to_user = e2.from_user))

/-- A JavaScript number as the expense controller sees it after parseFloat: either
a rational value or NaN, which stands for a missing or non-numeric input. -/
inductive JsNum
  | nan : JsNum
  | num : ℚ → JsNum
  deriving DecidableEq

/-- JavaScript addition: NaN propagates through every arithmetic operation. -/
def jsAdd : JsNum → JsNum → JsNum
  | .num a, .num b => .num (a + b)
  | _, _ => .nan

/-- JavaScript subtraction with NaN propagation. -/
def jsSub : JsNum → JsNum → JsNum
  | .num a, .num b => .num (a - b)
  | _, _ => .nan

/-- JavaScript multiplication with NaN propagation. -/
def jsMul : JsNum → JsNum → JsNum
  | .num a, .num b => .num (a * b)
  | _, _ => .nan

/-- JavaScript division with NaN propagation. Division of a number by zero yields
an infinity in JavaScript; the model returns NaN there, which is only ever reached
feeding a map over an empty list, so the difference is unobservable. -/
def jsDiv : JsNum → JsNum → JsNum
  | .num a, .num b => if b = 0 then .nan else .num (a / b)
  | _, _ => .nan

/-- JavaScript Math.abs with NaN propagation. -/
def jsAbs : JsNum → JsNum
  | .num a => .num |a|
  | .nan => .nan

/-- JavaScript strict greater-than: every comparison involving NaN is false. -/
def jsGt : JsNum → JsNum → Bool
  | .num a, .num b => decide (b < a)
  | _, _ => false

/-- toFixed(2) on a JavaScript number: NaN formats to the string NaN, which parses
back to NaN; a number is rounded to two decimals. -/
def jsRound2 : JsNum → JsNum
  | .num a => .num (roundTo2 a)
  | .nan => .nan

/-- One element of the splits array of an expense-creation request. A plain id
element, as the equal mode of the client sends, is modelled as a row whose id is
the element itself and whose other fields are nan, matching parseFloat applied to
an absent property. -/
structure RowIn where
  user_id : MemberId
  amount : JsNum
  percentage : JsNum
  deriving DecidableEq

/-- One calculated split produced by createExpense: id, amount after toFixed(2),
and the percentage field, null except in percentage mode. -/
structure Share where
  user_id : MemberId
  amount : JsNum
  percentage : Option JsNum
  deriving DecidableEq

/-- The body of an expense-creation request, restricted to the fields the
controller reads. The amount is a JavaScript number; nan stands for an absent or
non-numeric value, which is falsy like the number 0. -/
structure ExpenseReq where
  group_id : MemberId
  description : List Char
  amount : JsNum
  paid_by : MemberId
  split_type : List Char
  splits : List RowIn
  deriving DecidableEq

/-- The 400 responses of createExpense, one constructor per distinct message. -/
inductive ExpenseErr
  | missingFields : ExpenseErr
  | badSplitType : ExpenseErr
  | exactMismatch : ExpenseErr
  | percentMismatch : ExpenseErr
  deriving DecidableEq

/-- The split_type tag equal. -/
def eqTag : List Char := ['e', 'q', 'u', 'a', 'l']

/-- The split_type tag exact. -/
def exTag : List Char := ['e', 'x', 'a', 'c', 't']

/-- The split_type tag percentage. -/
def pctTag : List Char := ['p', 'e', 'r', 'c', 'e', 'n', 't', 'a', 'g', 'e']

/-- The expense controller up to its response: the required-field check (an empty
string and the number 0 are falsy; an array is always truthy, so the splits field
is never rejected here), the split_type membership check, then the per-mode split
calculation with its tolerance checks. The returned shares are the calculated
splits; persistence is outside the model. -/
def createExpense (r : ExpenseReq) : Except ExpenseErr (List Share) :=
  if r.group_id = [] ∨ r.description = [] ∨ (r.amount = .nan ∨ r.amount = .num 0) ∨
      r.paid_by = [] ∨ r.split_type = [] then
    .error .missingFields
  else if ¬ (r.split_type = eqTag ∨ r.split_type = exTag ∨ r.split_type = pctTag) then
    .error .badSplitType
  else if r.split_type = eqTag then
    let splitAmount := jsDiv r.amount (.num r.splits.length)
    .ok (r.splits.map fun row => Share.mk row.user_id (jsRound2 splitAmount) none)
  else if r.split_type = exTag then
    let totalSplit := (r.splits.map RowIn.amount).foldl jsAdd (.num 0)
    if jsGt (jsAbs (jsSub totalSplit r.amount)) (.num (1 / 100)) then
      .error .exactMismatch
    else
      .ok (r.splits.map fun row => Share.mk row.user_id (jsRound2 row.amount) none)
  else
    let totalPct := (r.splits.map RowIn.percentage).foldl jsAdd (.num 0)
    if jsGt (jsAbs (jsSub totalPct (.num 100))) (.num (1 / 100)) then
      .error .percentMismatch
    else
      .ok (r.splits.map fun row =>
        Share.mk row.user_id (jsRound2 (jsDiv (jsMul r.amount row.percentage) (.num 100)))
          (some row.percentage))

/-- The ledger of the settlement-cancellation example: one expense, A pays 90
split equally among A, B and C, stored as three 30 splits. -/
def hotelExpense : Expense :=
  Expense.mk ['A'] [SplitRec.mk ['A'] 30, SplitRec.mk ['B'] 30, SplitRec.mk ['C'] 30]

/-- The settlement of the cancellation example: B pays A 30. -/
def hotelSettlement : Settlement := Settlement.mk ['B'] ['A'] 30

/-- Three-way example: A pays 300 split equally, stored as three 100 splits. -/
def exp300 : Expense :=
  Expense.mk ['A'] [SplitRec.mk ['A'] 100, SplitRec.mk ['B'] 100, SplitRec.mk ['C'] 100]

/-- Three-way example: B pays 90 split equally, stored as three 30 splits. -/
def exp90 : Expense :=
  Expense.mk ['B'] [SplitRec.mk ['A'] 30, SplitRec.mk ['B'] 30, SplitRec.mk ['C'] 30]

/-- Three-way example: C pays 60 split equally, stored as three 20 splits. -/
def exp60 : Expense :=
  Expense.mk ['C'] [SplitRec.mk ['A'] 20, SplitRec.mk ['B'] 20, SplitRec.mk ['C'] 20]

/-- Three-way example settlement: C pays A 50. -/
def stlCA50 : Settlement := Settlement.mk ['C'] ['A'] 50

/-- A ledger entry whose ower id contains a dash: member y paid 10 owed by member
x-1. -/
def dashExp1 : Expense := Expense.mk ['y'] [SplitRec.mk ['x', '-', '1'] 10]

/-- Member x-1 paid 4 owed by member y. -/
def dashExp2 : Expense := Expense.mk ['x', '-', '1'] [SplitRec.mk ['y'] 4]

/-- A ledger whose ids a-b and b-a collide after fragment recovery: X paid 10 owed
by member a-b. -/
def collExp1 : Expense := Expense.mk ['X'] [SplitRec.mk ['a', '-', 'b'] 10]

/-- Member Y paid 10 owed by member b-a. -/
def collExp2 : Expense := Expense.mk ['Y'] [SplitRec.mk ['b', '-', 'a'] 10]

theorem neAB : ('A' : Char) ≠ 'B' := by decide

theorem neAC : ('A' : Char) ≠ 'C' := by decide

theorem neBA : ('B' : Char) ≠ 'A' := by decide

theorem neBC : ('B' : Char) ≠ 'C' := by decide

theorem neCA : ('C' : Char) ≠ 'A' := by decide

theorem neCB : ('C' : Char) ≠ 'B' := by decide

theorem neab : ('a' : Char) ≠ 'b' := by decide

theorem neba : ('b' : Char) ≠ 'a' := by decide

theorem nex1 : ('x' : Char) ≠ '1' := by decide

theorem ne1x : ('1' : Char) ≠ 'x' := by decide

theorem nexy : ('x' : Char) ≠ 'y' := by decide

theorem neyx : ('y' : Char) ≠ 'x' := by decide

theorem ney1 : ('y' : Char) ≠ '1' := by decide

theorem ne1y : ('1' : Char) ≠ 'y' := by decide

theorem sdBA : splitDash ['B', '-', 'A'] = [['B'], ['A']] := by simp [splitDash]

theorem sdCA : splitDash ['C', '-', 'A'] = [['C'], ['A']] := by simp [splitDash]

theorem sdAB : splitDash ['A', '-', 'B'] = [['A'], ['B']] := by simp [splitDash]

theorem sdCB : splitDash ['C', '-', 'B'] = [['C'], ['B']] := by simp [splitDash]

theorem sdAC : splitDash ['A', '-', 'C'] = [['A'], ['C']] := by simp [splitDash]

theorem sdBC : splitDash ['B', '-', 'C'] = [['B'], ['C']] := by simp [splitDash]

theorem sdX1Y : splitDash ['x', '-', '1', '-', 'y'] = [['x'], ['1'], ['y']] := by
  simp [splitDash]

theorem sdYX1 : splitDash ['y', '-', 'x', '-', '1'] = [['y'], ['x'], ['1']] := by
  simp [splitDash]

theorem sdABX : splitDash ['a', '-', 'b', '-', 'X'] = [['a'], ['b'], ['X']] := by
  simp [splitDash]

theorem sdBAY : splitDash ['b', '-', 'a', '-', 'Y'] = [['b'], ['a'], ['Y']] := by
  simp [splitDash]

/-- C1: on the ledger with one expense (A pays 90 split equally among A, B, C) and
one settlement (B pays A 30), getGroupBalances does not cancel B's debt: it returns
B owes A 60.00 followed by C owes A 30.00, not the single edge C owes A 30.00 that
the settlement-cancellation property expects. The settlement loop subtracts under
the reverse key, which the netting step then re-adds to B's debt. -/
theorem groupBalances_settlement_not_cancelled :
    getGroupBalances [hotelExpense] [hotelSettlement] =
      [Edge.mk ['B'] ['A'] 60, Edge.mk ['C'] ['A'] 30] ∧
    getGroupBalances [hotelExpense] [hotelSettlement] ≠ [Edge.mk ['C'] ['A'] 30] := by
  have h : getGroupBalances [hotelExpense] [hotelSettlement] =
      [Edge.mk ['B'] ['A'] 60, Edge.mk ['C'] ['A'] 30] := by
    norm_num [hotelExpense, hotelSettlement, getGroupBalances, groupBalanceMap, keysOf,
      applyExpenseG, applySplitG, applySettlementG, updA, lookup0, mkKey, simplifyLoop,
      roundTo2, sdBA, sdCA, sdAB, neAB, neAC, neBA, neBC, neCA, neCB]
  refine ⟨h, ?_⟩
  rw [h]
  simp

/-- C2: the group-scope and user-scope queries disagree on the same ledger: on the
expense (A pays 90 split equally) plus settlement (B pays A 30), getGroupBalances
reports B owes A 60.00, while getUserBalances for B reports empty owes and owed
lists, that is, no outstanding amount toward A at all. -/
theorem groupUserBalances_disagree :
    getGroupBalances [hotelExpense] [hotelSettlement] =
      [Edge.mk ['B'] ['A'] 60, Edge.mk ['C'] ['A'] 30] ∧
    getUserBalances ['B'] [hotelExpense] [hotelSettlement] = ([], []) := by
  constructor
  · norm_num [hotelExpense, hotelSettlement, getGroupBalances, groupBalanceMap, keysOf,
      applyExpenseG, applySplitG, applySettlementG, updA, lookup0, mkKey, simplifyLoop,
      roundTo2, sdBA, sdCA, sdAB, neAB, neAC, neBA, neBC, neCA, neCB]
  · norm_num [hotelExpense, hotelSettlement, getUserBalances, userBalanceMap,
      applyUserExpense, applyUserSplit, applyUserSettlement, updA, lookup0, roundTo2,
      neAB, neAC, neBA, neBC, neCA, neCB]

/-- C3: the three-expense ledger nets to B owes A 70.00, C owes A 80.00 and C owes
B 10.00 exactly as the walkthrough states, but adding the settlement C pays A 50
changes the C-to-A edge to 130.00, not to 30.00: the settlement is added on top of
C's debt instead of reducing it. -/
theorem threeWayNetting_settlement_added :
    getGroupBalances [exp300, exp90, exp60] [] =
      [Edge.mk ['B'] ['A'] 70, Edge.mk ['C'] ['A'] 80, Edge.mk ['C'] ['B'] 10] ∧
    getGroupBalances [exp300, exp90, exp60] [stlCA50] =
      [Edge.mk ['B'] ['A'] 70, Edge.mk ['C'] ['A'] 130, Edge.mk ['C'] ['B'] 10] := by
  constructor <;>
    norm_num [exp300, exp90, exp60, stlCA50, getGroupBalances, groupBalanceMap, keysOf,
      applyExpenseG, applySplitG, applySettlementG, updA, lookup0, mkKey, simplifyLoop,
      roundTo2, sdBA, sdCA, sdAB, sdCB, sdAC, sdBC, neAB, neAC, neBA, neBC, neCA, neCB]

/-- C5 counterexample: with member ids a-b and b-a, which contain the dash
separator, getGroupBalances emits the directed edge (a, b) and the directed edge
(b, a): both orderings of one unordered pair coexist in the output, refuting the
claim for arbitrary member identifiers. -/
theorem groupBalances_both_directions :
    getGroupBalances [collExp1, collExp2] [] =
      [Edge.mk ['a'] ['b'] 10, Edge.mk ['b'] ['a'] 10] ∧
    ¬ (getGroupBalances [collExp1, collExp2] []).Pairwise EdgeDistinct := by
  have h : getGroupBalances [collExp1, collExp2] [] =
      [Edge.mk ['a'] ['b'] 10, Edge.mk ['b'] ['a'] 10] := by
    norm_num [collExp1, collExp2, getGroupBalances, groupBalanceMap, keysOf,
      applyExpenseG, applySplitG, applySettlementG, updA, lookup0, mkKey, simplifyLoop,
      roundTo2, sdABX, sdBAY, neab, neba, List.cons_ne_nil]
  refine ⟨h, ?_⟩
  rw [h]
  simp [List.pairwise_cons, EdgeDistinct]

theorem splitDash_no_dash {l : List Char} (h : '-' ∉ l) : splitDash l = [l] := by
  induction l with
  | nil => rfl
  | cons c r ih =>
    have hc : c ≠ '-' := fun e => h (e ▸ List.mem_cons_self c r)
    have hr : '-' ∉ r := fun hm => h (List.mem_cons_of_mem c hm)
    simp only [splitDash, if_neg hc, ih hr]

theorem splitDash_append_dash {a : List Char} (b : List Char) (ha : '-' ∉ a) :
    splitDash (a ++ '-' :: b) = a :: splitDash b := by
  induction a with
  | nil => simp [splitDash]
  | cons c r ih =>
    have hc : c ≠ '-' := fun e => ha (e ▸ List.mem_cons_self c r)
    have hr : '-' ∉ r := fun hm => ha (List.mem_cons_of_mem c hm)
    show splitDash (c :: (r ++ '-' :: b)) = (c :: r) :: splitDash b
    simp only [splitDash, if_neg hc, ih hr]

theorem splitDash_pair {a b : MemberId} (ha : '-' ∉ a) (hb : '-' ∉ b) :
    splitDash (mkKey a b) = [a, b] := by
  rw [mkKey, splitDash_append_dash b ha, splitDash_no_dash hb]

/-- C9: the endpoints of an emitted edge are the first two dash-separated
fragments of the accumulator key, so they equal the original member ids whenever
the ids are dash-free; on the dash-containing ledger with members x-1 and y the
emitted endpoints are the fragments x and 1 of a single id, and the two
opposite-direction debts (x-1 owes y 10, y owes x-1 4) are not netted against
each other but emitted as two unrelated edges. -/
theorem keyFragment_recovery (a b : MemberId) (ha : '-' ∉ a) (hb : '-' ∉ b) :
    splitDash (mkKey a b) = [a, b] ∧
    getGroupBalances [dashExp1, dashExp2] [] =
      [Edge.mk ['x'] ['1'] 10, Edge.mk ['y'] ['x'] 4] := by
  refine ⟨splitDash_pair ha hb, ?_⟩
  norm_num [dashExp1, dashExp2, getGroupBalances, groupBalanceMap, keysOf,
    applyExpenseG, applySplitG, applySettlementG, updA, lookup0, mkKey, simplifyLoop,
    roundTo2, sdX1Y, sdYX1, nex1, ne1x, nexy, neyx, ney1, ne1y]

/-- Witness for keyFragment_recovery at the dash-free ids A and B. -/
theorem keyFragment_recovery_witness :
    ('-' ∉ (['A'] : MemberId)) ∧ ('-' ∉ (['B'] : MemberId)) ∧
    (splitDash (mkKey ['A'] ['B']) = [['A'], ['B']] ∧
      getGroupBalances [dashExp1, dashExp2] [] =
        [Edge.mk ['x'] ['1'] 10, Edge.mk ['y'] ['x'] 4]) :=
  ⟨by decide, by decide, keyFragment_recovery ['A'] ['B'] (by decide) (by decide)⟩

theorem nexq : ('x' : Char) ≠ 'q' := by decide

theorem nepe : ('p' : Char) ≠ 'e' := by decide

theorem numNeNan (q : ℚ) : JsNum.num q ≠ JsNum.nan := fun h => JsNum.noConfusion h

theorem lookup0_updA (m : List (BKey × ℚ)) (k : BKey) (d : ℚ) :
    lookup0 (updA m k d) k = lookup0 m k + d := by
  induction m with
  | nil => simp [updA, lookup0]
  | cons p m ih =>
    obtain ⟨k0, v⟩ := p
    by_cases h : k0 = k
    · simp [updA, lookup0, h]
    · simp [updA, lookup0, h, ih]

/-- C4 counterexample: for user A whose counterparty B stands at prior signed
balance -30 (B owes A 30), the settlement B pays A 30 drives the balance to -60:
subtracting the settlement amount doubles the magnitude instead of reducing it. -/
theorem userSettlement_magnitude_grows :
    lookup0 (applyUserSettlement ['A'] [(['B'], -30)] (Settlement.mk ['B'] ['A'] 30))
        ['B'] = -60 ∧
    ¬ (|(-60 : ℚ)| ≤ |(-30 : ℚ)|) := by
  constructor
  · norm_num [applyUserSettlement, updA, lookup0, neAB, neBA]
  · norm_num

/-- C4 amended: a settlement touching the queried user always moves the
counterparty balance from b to b minus the settlement amount; this never increases
the magnitude of the signed balance exactly when the prior balance is at least
half the settlement amount, and can increase it otherwise. -/
theorem userSettlement_magnitude (u c : MemberId) (m : List (MemberId × ℚ))
    (st : Settlement)
    (hc : (st.paid_by = u ∧ c = st.paid_to) ∨
          (st.paid_by ≠ u ∧ st.paid_to = u ∧ c = st.paid_by))
    (hpos : 0 < st.amount) (hhalf : st.amount ≤ 2 * lookup0 m c) :
    lookup0 (applyUserSettlement u m st) c = lookup0 m c - st.amount ∧
    |lookup0 (applyUserSettlement u m st) c| ≤ |lookup0 m c| := by
  have hupd : lookup0 (applyUserSettlement u m st) c = lookup0 m c - st.amount := by
    rcases hc with ⟨h1, h2⟩ | ⟨h1, h2, h3⟩
    · subst h2; rw [applyUserSettlement, if_pos h1, lookup0_updA]; ring
    · subst h3; rw [applyUserSettlement, if_neg h1, if_pos h2, lookup0_updA]; ring
  refine ⟨hupd, ?_⟩
  have hb : 0 < lookup0 m c := by linarith
  rw [hupd, abs_of_pos hb, abs_le]
  constructor <;> linarith

/-- Witness for userSettlement_magnitude: user A, counterparty B at prior balance
20, settlement B pays A 30. -/
theorem userSettlement_magnitude_witness :
    (((Settlement.mk ['B'] ['A'] (30 : ℚ)).paid_by = ['A'] ∧
        (['B'] : MemberId) = (Settlement.mk ['B'] ['A'] (30 : ℚ)).paid_to) ∨
      ((Settlement.mk ['B'] ['A'] (30 : ℚ)).paid_by ≠ ['A'] ∧
        (Settlement.mk ['B'] ['A'] (30 : ℚ)).paid_to = ['A'] ∧
        (['B'] : MemberId) = (Settlement.mk ['B'] ['A'] (30 : ℚ)).paid_by)) ∧
    (0 : ℚ) < (Settlement.mk ['B'] ['A'] (30 : ℚ)).amount ∧
    (Settlement.mk ['B'] ['A'] (30 : ℚ)).amount ≤ 2 * lookup0 [(['B'], 20)] ['B'] ∧
    (lookup0 (applyUserSettlement ['A'] [(['B'], 20)] (Settlement.mk ['B'] ['A'] 30))
        ['B'] = lookup0 [(['B'], 20)] ['B'] - (Settlement.mk ['B'] ['A'] (30 : ℚ)).amount ∧
      |lookup0 (applyUserSettlement ['A'] [(['B'], 20)] (Settlement.mk ['B'] ['A'] 30))
          ['B']| ≤ |lookup0 [(['B'], 20)] ['B']|) :=
  ⟨Or.inr ⟨by decide, rfl, rfl⟩, by norm_num, by norm_num [lookup0],
    userSettlement_magnitude ['A'] ['B'] [(['B'], 20)] (Settlement.mk ['B'] ['A'] 30)
      (Or.inr ⟨by decide, rfl, rfl⟩) (by norm_num) (by norm_num [lookup0])⟩

/-- C6 counterexample: a request with the strictly negative total -50 and kind
equal passes every check and returns a calculated split of -50 for its single
participant, and a request with an empty splits array and kind equal is accepted
with an empty split list: neither of the two inputs the claim says must fail is
rejected. -/
theorem createExpense_accepts_invalid :
    createExpense (ExpenseReq.mk ['g'] ['d'] (.num (-50)) ['P'] eqTag
        [RowIn.mk ['u'] .nan .nan]) =
      .ok [Share.mk ['u'] (.num (-50)) none] ∧
    createExpense (ExpenseReq.mk ['g'] ['d'] (.num 90) ['P'] eqTag []) = .ok [] := by
  constructor <;>
    norm_num [createExpense, eqTag, exTag, pctTag, jsDiv, jsRound2, roundTo2,
      List.cons_ne_nil, numNeNan, JsNum.num.injEq]

/-- C6 amended: with the required string fields present, createExpense rejects an
unknown split kind with the bad-split-type error, and rejects a zero amount
through the required-field check because the number 0 is falsy; but it accepts a
strictly negative total (producing the negative equal share) and accepts an empty
participant list under kind equal (producing no shares), so neither non-positive
totals in general nor empty participant lists are refused. -/
theorem createExpense_validation (r : ExpenseReq)
    (hg : r.group_id ≠ []) (hd : r.description ≠ []) (hp : r.paid_by ≠ [])
    (hst : r.split_type ≠ [])
    (hk : ¬ (r.split_type = eqTag ∨ r.split_type = exTag ∨ r.split_type = pctTag)) :
    (r.amount ≠ .nan → r.amount ≠ .num 0 → createExpense r = .error .badSplitType) ∧
    (r.amount = .num 0 → createExpense r = .error .missingFields) ∧
    createExpense (ExpenseReq.mk r.group_id r.description (.num (-50)) r.paid_by eqTag
        [RowIn.mk r.paid_by .nan .nan]) =
      .ok [Share.mk r.paid_by (.num (-50)) none] ∧
    createExpense (ExpenseReq.mk r.group_id r.description (.num 90) r.paid_by eqTag []) =
      .ok [] := by
  refine ⟨?_, ?_, ?_, ?_⟩
  · intro h1 h2
    rw [createExpense, if_neg (by simp [hg, hd, hp, hst, h1, h2]), if_pos hk]
  · intro h0
    rw [createExpense, if_pos (by simp [h0])]
  · norm_num [createExpense, eqTag, exTag, pctTag, jsDiv, jsRound2, roundTo2,
      List.cons_ne_nil, numNeNan, JsNum.num.injEq, hg, hd, hp]
  · norm_num [createExpense, eqTag, exTag, pctTag, jsDiv, jsRound2, roundTo2,
      List.cons_ne_nil, numNeNan, JsNum.num.injEq, hg, hd, hp]

/-- Witness for createExpense_validation on a request with the unknown kind z. -/
theorem createExpense_validation_witness :
    ((['g'] : MemberId) ≠ []) ∧ ((['d'] : List Char) ≠ []) ∧ ((['P'] : MemberId) ≠ []) ∧
    ((['z'] : List Char) ≠ []) ∧
    (¬ ((['z'] : List Char) = eqTag ∨ (['z'] : List Char) = exTag ∨
        (['z'] : List Char) = pctTag)) ∧
    (((ExpenseReq.mk ['g'] ['d'] (.num 7) ['P'] ['z'] []).amount ≠ .nan →
        (ExpenseReq.mk ['g'] ['d'] (.num 7) ['P'] ['z'] []).amount ≠ .num 0 →
        createExpense (ExpenseReq.mk ['g'] ['d'] (.num 7) ['P'] ['z'] []) =
          .error .badSplitType) ∧
      ((ExpenseReq.mk ['g'] ['d'] (.num 7) ['P'] ['z'] []).amount = .num 0 →
        createExpense (ExpenseReq.mk ['g'] ['d'] (.num 7) ['P'] ['z'] []) =
          .error .missingFields) ∧
      createExpense (ExpenseReq.mk ['g'] ['d'] (.num (-50)) ['P'] eqTag
          [RowIn.mk ['P'] .nan .nan]) =
        .ok [Share.mk ['P'] (.num (-50)) none] ∧
      createExpense (ExpenseReq.mk ['g'] ['d'] (.num 90) ['P'] eqTag []) = .ok []) :=
  ⟨by decide, by decide, by decide, by decide, by decide,
    createExpense_validation (ExpenseReq.mk ['g'] ['d'] (.num 7) ['P'] ['z'] [])
      (by decide) (by decide) (by decide) (by decide) (by decide)⟩

/-- C10: a NaN participant amount makes the exact-split sum NaN, every comparison
with NaN is false, so the tolerance check does not fire and the request is
accepted with a NaN share; the same happens for a NaN percentage under the
percentage kind. -/
theorem createExpense_nan_bypass :
    createExpense (ExpenseReq.mk ['g'] ['d'] (.num 100) ['P'] exTag
        [RowIn.mk ['u'] .nan .nan, RowIn.mk ['v'] (.num 1) .nan]) =
      .ok [Share.mk ['u'] .nan none, Share.mk ['v'] (.num 1) none] ∧
    createExpense (ExpenseReq.mk ['g'] ['d'] (.num 100) ['P'] pctTag
        [RowIn.mk ['u'] .nan .nan]) =
      .ok [Share.mk ['u'] .nan (some .nan)] := by
  constructor <;>
    norm_num [createExpense, eqTag, exTag, pctTag, jsAdd, jsSub, jsAbs, jsGt, jsMul,
      jsDiv, jsRound2, roundTo2, List.cons_ne_nil, numNeNan, JsNum.num.injEq,
      nexq, nepe]

theorem roundTo2_sub_le (q : ℚ) : |roundTo2 q - q| ≤ 5 / 1000 := by
  rw [roundTo2]
  have h1 : ((⌊q * 100 + 1 / 2⌋ : ℤ) : ℚ) ≤ q * 100 + 1 / 2 := Int.floor_le _
  have h2 : q * 100 + 1 / 2 - 1 < ((⌊q * 100 + 1 / 2⌋ : ℤ) : ℚ) := Int.sub_one_lt_floor _
  rw [abs_le]
  constructor <;> linarith

theorem sum_map_const {α : Type} (l : List α) (c : ℚ) :
    (l.map fun _ => c).sum = l.length * c := by
  induction l with
  | nil => simp
  | cons x l ih => simp [ih]; ring

/-- C7: for a positive total and a nonempty participant list, the equal split
gives every participant the total divided by the count rounded to two decimals
independently with a null percentage field, and the sum of the rounded shares
differs from the total by at most count times 0.005. -/
theorem equalSplit_shares (a : ℚ) (ha : 0 < a) (rows : List RowIn) (hr : rows ≠ [])
    (g d p : MemberId) (hg : g ≠ []) (hd : d ≠ []) (hp : p ≠ []) :
    createExpense (ExpenseReq.mk g d (.num a) p eqTag rows) =
      .ok (rows.map fun row =>
        Share.mk row.user_id (.num (roundTo2 (a / rows.length))) none) ∧
    |(rows.map fun _ => roundTo2 (a / rows.length)).sum - a| ≤
      rows.length * (5 / 1000) := by
  have hlen0 : rows.length ≠ 0 := fun h => hr (List.length_eq_zero.mp h)
  have hlen : (rows.length : ℚ) ≠ 0 := Nat.cast_ne_zero.mpr hlen0
  constructor
  · have c1 : ¬(g = [] ∨ d = [] ∨ (JsNum.num a = .nan ∨ JsNum.num a = .num 0) ∨
        p = [] ∨ eqTag = []) := by
      simp [hg, hd, hp, ha.ne', eqTag]
    have c2 : ¬¬(eqTag = eqTag ∨ eqTag = exTag ∨ eqTag = pctTag) := by simp
    rw [createExpense, if_neg c1, if_neg c2, if_pos rfl]
    simp [jsDiv, hlen, jsRound2]
  · have hsum : (rows.map fun _ => roundTo2 (a / rows.length)).sum =
        (rows.length : ℚ) * roundTo2 (a / rows.length) := sum_map_const rows _
    have hna : (rows.length : ℚ) * (a / rows.length) = a := by field_simp
    have hb := roundTo2_sub_le (a / (rows.length : ℚ))
    have hn : (0 : ℚ) ≤ (rows.length : ℚ) := Nat.cast_nonneg _
    calc |(rows.map fun _ => roundTo2 (a / rows.length)).sum - a|
        = |(rows.length : ℚ) * (roundTo2 (a / rows.length) - a / rows.length)| := by
          rw [hsum, mul_sub, hna]
      _ = (rows.length : ℚ) * |roundTo2 (a / rows.length) - a / rows.length| := by
          rw [abs_mul, abs_of_nonneg hn]
      _ ≤ (rows.length : ℚ) * (5 / 1000) := mul_le_mul_of_nonneg_left hb hn

/-- Witness for equalSplit_shares: total 10 split equally among three members. -/
theorem equalSplit_shares_witness :
    (0 : ℚ) < 10 ∧
    ([RowIn.mk ['u'] .nan .nan, RowIn.mk ['v'] .nan .nan, RowIn.mk ['w'] .nan .nan] ≠
      ([] : List RowIn)) ∧
    (createExpense (ExpenseReq.mk ['g'] ['d'] (.num 10) ['P'] eqTag
          [RowIn.mk ['u'] .nan .nan, RowIn.mk ['v'] .nan .nan, RowIn.mk ['w'] .nan .nan]) =
        .ok ([RowIn.mk ['u'] .nan .nan, RowIn.mk ['v'] .nan .nan,
            RowIn.mk ['w'] .nan .nan].map fun row =>
          Share.mk row.user_id
            (.num (roundTo2 ((10 : ℚ) / [RowIn.mk ['u'] .nan .nan, RowIn.mk ['v'] .nan .nan,
              RowIn.mk ['w'] .nan .nan].length))) none) ∧
      |([RowIn.mk ['u'] .nan .nan, RowIn.mk ['v'] .nan .nan,
          RowIn.mk ['w'] .nan .nan].map fun _ =>
            roundTo2 ((10 : ℚ) / [RowIn.mk ['u'] .nan .nan, RowIn.mk ['v'] .nan .nan,
              RowIn.mk ['w'] .nan .nan].length)).sum - 10| ≤
        [RowIn.mk ['u'] .nan .nan, RowIn.mk ['v'] .nan .nan,
          RowIn.mk ['w'] .nan .nan].length * (5 / 1000)) :=
  ⟨by norm_num, List.cons_ne_nil _ _,
    equalSplit_shares 10 (by norm_num)
      [RowIn.mk ['u'] .nan .nan, RowIn.mk ['v'] .nan .nan, RowIn.mk ['w'] .nan .nan]
      (List.cons_ne_nil _ _) ['g'] ['d'] ['P']
      (List.cons_ne_nil _ _) (List.cons_ne_nil _ _) (List.cons_ne_nil _ _)⟩

theorem jsSum_num (l : List ℚ) : ∀ c : ℚ,
    (l.map JsNum.num).foldl jsAdd (.num c) = .num (c + l.sum) := by
  induction l with
  | nil => intro c; simp
  | cons x l ih =>
    intro c
    simp only [List.map_cons, List.foldl_cons, jsAdd]
    rw [ih, List.sum_cons]
    congr 1
    ring

/-- C8: with the required fields present and a nonzero numeric total, the exact
split succeeds exactly when the given participant amounts sum to within 0.01 of
the total; on success each share passes the given amount through reformatted to
two decimals, and when the sum is off by more than 0.01 the request fails with the
exact-mismatch validation error. -/
theorem exactSplit_tolerance (a : ℚ) (ha : a ≠ 0) (pairs : List (MemberId × ℚ))
    (g d p : MemberId) (hg : g ≠ []) (hd : d ≠ []) (hp : p ≠ []) :
    (|(pairs.map Prod.snd).sum - a| ≤ 1 / 100 →
      createExpense (ExpenseReq.mk g d (.num a) p exTag
          (pairs.map fun pr => RowIn.mk pr.1 (.num pr.2) .nan)) =
        .ok (pairs.map fun pr => Share.mk pr.1 (.num (roundTo2 pr.2)) none)) ∧
    (1 / 100 < |(pairs.map Prod.snd).sum - a| →
      createExpense (ExpenseReq.mk g d (.num a) p exTag
          (pairs.map fun pr => RowIn.mk pr.1 (.num pr.2) .nan)) =
        .error .exactMismatch) := by
  have c1 : ¬(g = [] ∨ d = [] ∨ (JsNum.num a = .nan ∨ JsNum.num a = .num 0) ∨
      p = [] ∨ exTag = []) := by
    simp [hg, hd, hp, ha, exTag]
  have c2 : ¬¬(exTag = eqTag ∨ exTag = exTag ∨ exTag = pctTag) := by simp
  have c3 : exTag ≠ eqTag := by decide
  have hsum : (((pairs.map fun pr => RowIn.mk pr.1 (.num pr.2) .nan).map
      RowIn.amount).foldl jsAdd (.num 0)) = .num ((pairs.map Prod.snd).sum) := by
    rw [List.map_map]
    have he : (RowIn.amount ∘ fun pr : MemberId × ℚ => RowIn.mk pr.1 (.num pr.2) .nan) =
        fun pr : MemberId × ℚ => JsNum.num pr.2 := rfl
    have h2 : (pairs.map fun pr : MemberId × ℚ => JsNum.num pr.2) =
        (pairs.map Prod.snd).map JsNum.num := by
      rw [List.map_map]; rfl
    rw [he, h2, jsSum_num, zero_add]
  constructor
  · intro htol
    rw [createExpense, if_neg c1, if_neg c2, if_neg c3, if_pos rfl]
    simp only [hsum, jsSub, jsAbs, jsGt]
    rw [if_neg (by simp only [decide_eq_true_eq]; exact not_lt.mpr htol)]
    simp [List.map_map, jsRound2, Function.comp]
  · intro htol
    rw [createExpense, if_neg c1, if_neg c2, if_neg c3, if_pos rfl]
    simp only [hsum, jsSub, jsAbs, jsGt]
    rw [if_pos (by simp only [decide_eq_true_eq]; exact htol)]

/-- Witness for exactSplit_tolerance: total 10 with shares 4 and 6.005, whose sum
is within tolerance, so the request is accepted with shares 4.00 and 6.01. -/
theorem exactSplit_tolerance_witness :
    ((10 : ℚ) ≠ 0) ∧ ((['g'] : MemberId) ≠ []) ∧ ((['d'] : List Char) ≠ []) ∧
    ((['P'] : MemberId) ≠ []) ∧
    ((|([(['u'], (4 : ℚ)), (['v'], 6005 / 1000)].map Prod.snd).sum - 10| ≤ 1 / 100 →
        createExpense (ExpenseReq.mk ['g'] ['d'] (.num 10) ['P'] exTag
            ([(['u'], (4 : ℚ)), (['v'], 6005 / 1000)].map fun pr =>
              RowIn.mk pr.1 (.num pr.2) .nan)) =
          .ok ([(['u'], (4 : ℚ)), (['v'], 6005 / 1000)].map fun pr =>
            Share.mk pr.1 (.num (roundTo2 pr.2)) none)) ∧
      (1 / 100 < |([(['u'], (4 : ℚ)), (['v'], 6005 / 1000)].map Prod.snd).sum - 10| →
        createExpense (ExpenseReq.mk ['g'] ['d'] (.num 10) ['P'] exTag
            ([(['u'], (4 : ℚ)), (['v'], 6005 / 1000)].map fun pr =>
              RowIn.mk pr.1 (.num pr.2) .nan)) =
          .error .exactMismatch)) :=
  ⟨by norm_num, List.cons_ne_nil _ _, List.cons_ne_nil _ _, List.cons_ne_nil _ _,
    exactSplit_tolerance 10 (by norm_num) [(['u'], 4), (['v'], 6005 / 1000)]
      ['g'] ['d'] ['P'] (List.cons_ne_nil _ _) (List.cons_ne_nil _ _)
      (List.cons_ne_nil _ _)⟩

theorem mem_keysOf_updA (k k0 : BKey) (d : ℚ) :
    ∀ m : List (BKey × ℚ), k0 ∈ keysOf (updA m k d) → k0 ∈ keysOf m ∨ k0 = k := by
  intro m
  induction m with
  | nil =>
    intro h
    simp only [updA, keysOf, List.map_cons, List.map_nil, List.mem_singleton] at h
    exact Or.inr h
  | cons p m ih =>
    obtain ⟨k1, v⟩ := p
    intro h
    simp only [updA] at h
    by_cases e : k1 = k
    · rw [if_pos e] at h
      simp only [keysOf, List.map_cons, List.mem_cons] at h ⊢
      tauto
    · rw [if_neg e] at h
      simp only [keysOf, List.map_cons, List.mem_cons] at h ⊢
      rcases h with h | h
      · exact Or.inl (Or.inl h)
      · rcases ih h with h2 | h2
        · exact Or.inl (Or.inr h2)
        · exact Or.inr h2

theorem keys_wf_applySplitG (payer : MemberId) (hp : '-' ∉ payer)
    (m : List (BKey × ℚ)) (s : SplitRec) (hs : '-' ∉ s.user_id)
    (hm : ∀ x ∈ keysOf m, WFKey x) :
    ∀ x ∈ keysOf (applySplitG payer m s), WFKey x := by
  intro x hx
  rw [applySplitG] at hx
  by_cases e : s.user_id ≠ payer
  · rw [if_pos e] at hx
    rcases mem_keysOf_updA _ x _ m hx with h | rfl
    · exact hm x h
    · exact ⟨s.user_id, payer, hs, hp, rfl⟩
  · rw [if_neg e] at hx
    exact hm x hx

theorem keys_wf_splits_fold (payer : MemberId) (hp : '-' ∉ payer) :
    ∀ (l : List SplitRec) (m : List (BKey × ℚ)),
      (∀ s ∈ l, '-' ∉ s.user_id) → (∀ x ∈ keysOf m, WFKey x) →
      ∀ x ∈ keysOf (l.foldl (applySplitG payer) m), WFKey x := by
  intro l
  induction l with
  | nil => intro m _ hm; simpa using hm
  | cons s l ih =>
    intro m hl hm
    rw [List.foldl_cons]
    exact ih _ (fun t ht => hl t (List.mem_cons_of_mem s ht))
      (keys_wf_applySplitG payer hp m s (hl s (List.mem_cons_self s l)) hm)

theorem keys_wf_expense_fold :
    ∀ (l : List Expense) (m : List (BKey × ℚ)),
      (∀ e ∈ l, '-' ∉ e.paid_by ∧ ∀ s ∈ e.expense_splits, '-' ∉ s.user_id) →
      (∀ x ∈ keysOf m, WFKey x) →
      ∀ x ∈ keysOf (l.foldl applyExpenseG m), WFKey x := by
  intro l
  induction l with
  | nil => intro m _ hm; simpa using hm
  | cons e l ih =>
    intro m hl hm
    rw [List.foldl_cons]
    refine ih _ (fun t ht => hl t (List.mem_cons_of_mem e ht)) ?_
    have he := hl e (List.mem_cons_self e l)
    intro x hx
    rw [applyExpenseG] at hx
    exact keys_wf_splits_fold e.paid_by he.1 e.expense_splits m he.2 hm x hx

theorem keys_wf_settlement_fold :
    ∀ (l : List Settlement) (m : List (BKey × ℚ)),
      (∀ st ∈ l, '-' ∉ st.paid_by ∧ '-' ∉ st.paid_to) →
      (∀ x ∈ keysOf m, WFKey x) →
      ∀ x ∈ keysOf (l.foldl applySettlementG m), WFKey x := by
  intro l
  induction l with
  | nil => intro m _ hm; simpa using hm
  | cons st l ih =>
    intro m hl hm
    rw [List.foldl_cons]
    refine ih _ (fun t ht => hl t (List.mem_cons_of_mem st ht)) ?_
    intro x hx
    rw [applySettlementG] at hx
    rcases mem_keysOf_updA _ x _ m hx with h | rfl
    · exact hm x h
    · exact ⟨st.paid_to, st.paid_by, (hl st (List.mem_cons_self st l)).2,
        (hl st (List.mem_cons_self st l)).1, rfl⟩

theorem keys_wf_groupBalanceMap (exps : List Expense) (stls : List Settlement)
    (h : LedgerDashFree exps stls) :
    ∀ x ∈ keysOf (groupBalanceMap exps stls), WFKey x := by
  rw [groupBalanceMap]
  exact keys_wf_settlement_fold stls _ h.2
    (keys_wf_expense_fold exps [] h.1 (fun x hx => absurd hx (List.not_mem_nil x)))

theorem simplifyLoop_not_processed (bal : List (BKey × ℚ)) :
    ∀ (ks proc : List BKey), (∀ k ∈ ks, WFKey k) →
      ∀ e ∈ simplifyLoop bal ks proc,
        mkKey e.from_user e.to_user ∉ proc ∧ mkKey e.to_user e.from_user ∉ proc := by
  intro ks
  induction ks with
  | nil =>
    intro proc _ e he
    simp [simplifyLoop] at he
  | cons k ks ih =>
    intro proc hwf e he
    obtain ⟨a, b, hda, hdb, hk⟩ := hwf k (List.mem_cons_self k ks)
    have hwf2 : ∀ x ∈ ks, WFKey x := fun x hx => hwf x (List.mem_cons_of_mem k hx)
    have hsd : splitDash k = [a, b] := by rw [hk]; exact splitDash_pair hda hdb
    simp only [simplifyLoop, hsd, List.getD_cons_zero, List.getD_cons_succ] at he
    by_cases hmem : k ∈ proc ∨ mkKey b a ∈ proc
    · rw [if_pos hmem] at he
      exact ih proc hwf2 e he
    · rw [if_neg hmem] at he
      push_neg at hmem
      have htail : e ∈ simplifyLoop bal ks (mkKey b a :: k :: proc) →
          mkKey e.from_user e.to_user ∉ proc ∧ mkKey e.to_user e.from_user ∉ proc := by
        intro hrest
        have h2 := ih _ hwf2 e hrest
        exact ⟨fun hc => h2.1 (List.mem_cons_of_mem _ (List.mem_cons_of_mem _ hc)),
          fun hc => h2.2 (List.mem_cons_of_mem _ (List.mem_cons_of_mem _ hc))⟩
      by_cases hnet : 1 / 100 < |lookup0 bal k - lookup0 bal (mkKey b a)|
      · rw [if_pos hnet] at he
        by_cases hpos2 : 0 < lookup0 bal k - lookup0 bal (mkKey b a)
        · rw [if_pos hpos2] at he
          rcases List.mem_cons.mp he with rfl | hrest
          · refine ⟨fun hc => hmem.1 ?_, fun hc => hmem.2 ?_⟩
            · rw [hk]; exact hc
            · exact hc
          · exact htail hrest
        · rw [if_neg hpos2] at he
          rcases List.mem_cons.mp he with rfl | hrest
          · refine ⟨fun hc => hmem.2 ?_, fun hc => hmem.1 ?_⟩
            · exact hc
            · rw [hk]; exact hc
          · exact htail hrest
      · rw [if_neg hnet] at he
        exact htail he

theorem simplifyLoop_pairwise (bal : List (BKey × ℚ)) :
    ∀ (ks proc : List BKey), (∀ k ∈ ks, WFKey k) →
      (simplifyLoop bal ks proc).Pairwise EdgeDistinct := by
  intro ks
  induction ks with
  | nil => intro proc _; simp [simplifyLoop]
  | cons k ks ih =>
    intro proc hwf
    obtain ⟨a, b, hda, hdb, hk⟩ := hwf k (List.mem_cons_self k ks)
    have hwf2 : ∀ x ∈ ks, WFKey x := fun x hx => hwf x (List.mem_cons_of_mem k hx)
    have hsd : splitDash k = [a, b] := by rw [hk]; exact splitDash_pair hda hdb
    simp only [simplifyLoop, hsd, List.getD_cons_zero, List.getD_cons_succ]
    by_cases hmem : k ∈ proc ∨ mkKey b a ∈ proc
    · rw [if_pos hmem]
      exact ih proc hwf2
    · rw [if_neg hmem]
      by_cases hnet : 1 / 100 < |lookup0 bal k - lookup0 bal (mkKey b a)|
      · rw [if_pos hnet]
        refine List.Pairwise.cons ?_ (ih _ hwf2)
        intro e he
        have h2 := simplifyLoop_not_processed bal ks (mkKey b a :: k :: proc) hwf2 e he
        have hne1 : mkKey e.from_user e.to_user ≠ k := by
          intro hq
          exact h2.1 (by rw [hq]; exact List.mem_cons_of_mem _ (List.mem_cons_self _ _))
        have hne2 : mkKey e.from_user e.to_user ≠ mkKey b a := by
          intro hq
          exact h2.1 (by rw [hq]; exact List.mem_cons_self _ _)
        by_cases hpos2 : 0 < lookup0 bal k - lookup0 bal (mkKey b a)
        · rw [if_pos hpos2]
          simp only [EdgeDistinct]
          rintro (⟨h1, h3⟩ | ⟨h1, h3⟩)
          · exact hne1 (by rw [← h1, ← h3]; exact hk.symm)
          · exact hne2 (by rw [← h1, ← h3])
        · rw [if_neg hpos2]
          simp only [EdgeDistinct]
          rintro (⟨h1, h3⟩ | ⟨h1, h3⟩)
          · exact hne2 (by rw [← h1, ← h3])
          · exact hne1 (by rw [← h1, ← h3]; exact hk.symm)
      · rw [if_neg hnet]
        exact ih _ hwf2

/-- C5 amended: provided every member id in the ledger is free of the dash
character the source uses as its key separator, no two edges of getGroupBalances
share the same unordered pair of endpoints; in particular the output never
contains both a directed edge (A, B) and a directed edge (B, A). Without the
dash-free restriction the property fails. -/
theorem groupBalances_one_edge_per_pair (exps : List Expense) (stls : List Settlement)
    (h : LedgerDashFree exps stls) :
    (getGroupBalances exps stls).Pairwise EdgeDistinct := by
  show (simplifyLoop (groupBalanceMap exps stls)
    (keysOf (groupBalanceMap exps stls)) []).Pairwise EdgeDistinct
  exact simplifyLoop_pairwise _ _ _ (fun k hk => keys_wf_groupBalanceMap exps stls h k hk)

/-- Witness for groupBalances_one_edge_per_pair on the three-expense ledger with
its settlement. -/
theorem groupBalances_one_edge_per_pair_witness :
    LedgerDashFree [exp300, exp90, exp60] [stlCA50] ∧
    (getGroupBalances [exp300, exp90, exp60] [stlCA50]).Pairwise EdgeDistinct :=
  ⟨by decide, groupBalances_one_edge_per_pair [exp300, exp90, exp60] [stlCA50] (by decide)⟩

end ExpenseApp
